import Mathlib

/-!
Shallow embedding of the polygon-annotation augmentor
(`src/src/augmentor.py`, class `PolygonAugmentor`) and proofs about it.

Coordinates are modelled as rationals (`ℚ`).  A label file is modelled as a
list of lines, each line the list of whitespace-separated tokens obtained by
`line.strip().split()`; a token is classified by how Python `int`/`float`
parse it.  File-system effects are modelled by explicit inputs: whether the
label file exists (and its token lines), and whether the image decodes (and
its width/height).  The stochastic albumentations transform is modelled as a
per-iteration oracle returning `none` when the call raises.
-/

namespace PolygonAugmentor

/-- A polygon annotation: `(class_id, points)` as read and written by the
augmentor, points in order. -/
abbrev Polygon := ℤ × List (ℚ × ℚ)

/-- The annotations of one image, in file/line order. -/
abbrev AnnotationSet := List Polygon

/-- One whitespace-separated token of a label-file line, classified by how
Python parses it: `int z` parses as both `int` and `float`; `flt q` parses as
`float` but not `int` (a decimal such as `0.100000`); `bad` parses as
neither. -/
inductive Token where
  | int : ℤ → Token
  | flt : ℚ → Token
  | bad : Token
deriving DecidableEq, Repr

/-- Python `int(tok)`: succeeds exactly on integer-shaped tokens. -/
def parseInt : Token → Option ℤ
  | Token.int z => some z
  | _ => none

/-- Python `float(tok)`: succeeds on integer and decimal tokens. -/
def parseFloat : Token → Option ℚ
  | Token.int z => some (z : ℚ)
  | Token.flt q => some q
  | Token.bad => none

/-- `list(map(float, parts[1:]))`: all tokens parse as floats, or the line
raises `ValueError`. -/
def parseFloats : List Token → Option (List ℚ)
  | [] => some []
  | t :: ts =>
    match parseFloat t, parseFloats ts with
    | some q, some qs => some (q :: qs)
    | _, _ => none

/-- `[(coords[i], coords[i+1]) for i in range(0, len(coords), 2)]`, used only
on even-length coordinate lists (an odd length raises first, see
`parseLine`). -/
def pairUp : List ℚ → List (ℚ × ℚ)
  | x :: y :: rest => (x, y) :: pairUp rest
  | _ => []

/-- The body of the `for line in f` loop of `read_polygons` on one tokenized
line.  `none` models the line raising: `parts[0]` on an empty line,
`int(parts[0])` on a non-integer head, `float` on a non-numeric coordinate
token, or `coords[i+1]` when the coordinate count is odd. -/
def parseLine : List Token → Option Polygon
  | [] => none
  | t :: rest =>
    match parseInt t, parseFloats rest with
    | some cid, some coords =>
      if coords.length % 2 = 0 then some (cid, pairUp coords) else none
    | _, _ => none

/-- `PolygonAugmentor.read_polygons`: `polygons` is accumulated inside a
`try` whose handler only logs, so the function returns the polygons of the
lines before the first failing line (all lines when none fails). -/
def read_polygons : List (List Token) → AnnotationSet
  | [] => []
  | l :: ls =>
    match parseLine l with
    | none => []
    | some p => p :: read_polygons ls

/-- `min(max(c, 0.0), 1.0)` from `write_polygons`. -/
def clamp01 (c : ℚ) : ℚ := min (max c 0) 1

/-- The value denoted by `f"{c:.6f}"`: `c` rounded to six decimal places. -/
def format6 (c : ℚ) : ℚ := (round (c * 1000000) : ℤ) / 1000000

/-- The `coords_flat` list of `write_polygons` for one polygon: each point's
x then y, independently clamped to `[0,1]`, in point order. -/
def coordsFlat : List (ℚ × ℚ) → List ℚ
  | [] => []
  | xy :: rest => clamp01 xy.1 :: clamp01 xy.2 :: coordsFlat rest

/-- One written line, `f"{class_id} " + " ".join(f"{c:.6f}" for c in
coords_flat)`: the class-id token followed by each coordinate formatted to
six decimals. -/
def writeLine (p : Polygon) : List Token :=
  Token.int p.1 :: (coordsFlat p.2).map (fun c => Token.flt (format6 c))

/-- `PolygonAugmentor.write_polygons`: one line per polygon, in order. -/
def write_polygons (polys : AnnotationSet) : List (List Token) :=
  polys.map writeLine

/-- `(x * width, y * height)` from the keypoint-flattening loop of
`process_image`. -/
def toPixel (w h : ℚ) (p : ℚ × ℚ) : ℚ × ℚ := (p.1 * w, p.2 * h)

/-- `(x / width, y / height)` from the reconstruction loop of
`process_image`. -/
def toNormalized (w h : ℚ) (p : ℚ × ℚ) : ℚ × ℚ := (p.1 / w, p.2 / h)

/-- The `keypoints` list built at the top of each iteration of
`process_image`: all points of all polygons, in annotation order, scaled to
pixel space. -/
def flattenKeypoints (w h : ℚ) : AnnotationSet → List (ℚ × ℚ)
  | [] => []
  | p :: rest => p.2.map (toPixel w h) ++ flattenKeypoints w h rest

/-- The `polygons_aug` reconstruction loop of `process_image`: slice
`aug_keypoints` by each polygon's original point count (`idx` bookkeeping
becomes take/drop), renormalize with the pre-transform dimensions, keep each
polygon's class id and position. -/
def resliceAux (w h : ℚ) : AnnotationSet → List (ℚ × ℚ) → AnnotationSet
  | [], _ => []
  | p :: rest, kps =>
    (p.1, (kps.take p.2.length).map (toNormalized w h)) ::
      resliceAux w h rest (kps.drop p.2.length)

/-- Modelled from the spec: the keypoint action of one horizontal flip of the
albumentations pipeline, which is third-party code not in this repository.
Spec 4.3: the flip mirrors all keypoints across the vertical midline,
`x' = width - x`, y unchanged. -/
def hflipKeypoint (w : ℚ) (p : ℚ × ℚ) : ℚ × ℚ := (w - p.1, p.2)

/-- Modelled from the spec: a photometric operation of the pipeline
(brightness/contrast, blur, CLAHE).  Spec 4.3: photometric only; keypoints
pass through unchanged whether or not the gate fires. -/
def photometricKeypoints (_fires : Bool) (kps : List (ℚ × ℚ)) :
    List (ℚ × ℚ) := kps

/-- Modelled from the spec: the keypoint action of the composed pipeline
`A.Compose([HorizontalFlip, RandomBrightnessContrast, Blur, CLAHE])` for one
draw of the four independent gates, applied in listed order. -/
def pipelineKeypoints (flip bc blur clahe : Bool) (w : ℚ)
    (kps : List (ℚ × ℚ)) : List (ℚ × ℚ) :=
  photometricKeypoints clahe (photometricKeypoints blur (photometricKeypoints
    bc (if flip then kps.map (hflipKeypoint w) else kps)))

/-- One augmented sample written by a successful iteration `i` of
`process_image`: its iteration index, the two derived output names, and the
content of the written label file. -/
structure OutputPair where
  idx : ℕ
  imgName : String
  lblName : String
  label : List (List Token)
deriving DecidableEq, Repr

/-- One iteration of the `for i in range(self.num_augmentations)` loop of
`process_image`: flatten to pixel keypoints, run the transform oracle
(`none` models the augment call raising, the `except` branch logs and
continues), reslice, renormalize, and emit the output pair named
`{name}_aug{i}`. -/
def augIteration (stem : String) (polys : AnnotationSet) (w h : ℚ)
    (tf : ℕ → List (ℚ × ℚ) → Option (List (ℚ × ℚ))) (i : ℕ) :
    Option OutputPair :=
  (tf i (flattenKeypoints w h polys)).map fun kps =>
    ⟨i, stem ++ "_aug" ++ toString i ++ ".jpg",
     stem ++ "_aug" ++ toString i ++ ".txt",
     write_polygons (resliceAux w h polys kps)⟩

/-- The inputs `process_image` draws from the file system for one source
image: its stem, the tokenized lines of its label file (`none` when
`label_path` does not exist), and the decoded image's `(width, height)`
(`none` when `cv2.imread` fails). -/
structure ImageInput where
  stem : String
  labelLines : Option (List (List Token))
  image : Option (ℚ × ℚ)

/-- `PolygonAugmentor.process_image`: missing label warns and returns before
the image is read; unreadable image returns; otherwise the label is read
once and all `num_augmentations` iterations run, each contributing its
output pair when its transform call succeeds. -/
def process_image (inp : ImageInput) (num_augmentations : ℕ)
    (tf : ℕ → List (ℚ × ℚ) → Option (List (ℚ × ℚ))) : List OutputPair :=
  match inp.labelLines with
  | none => []
  | some lines =>
    match inp.image with
    | none => []
    | some (w, h) =>
      (List.range num_augmentations).filterMap
        (augIteration inp.stem (read_polygons lines) w h tf)

/-- `PolygonAugmentor.run`: every discovered image is processed; one result
list per source image. -/
def processBatch (inps : List ImageInput) (num_augmentations : ℕ)
    (tf : ℕ → List (ℚ × ℚ) → Option (List (ℚ × ℚ))) :
    List (List OutputPair) :=
  inps.map (fun inp => process_image inp num_augmentations tf)

/-- The per-coordinate value surviving the write/read round trip: clamp to
`[0,1]`, then six-decimal formatting. -/
def fmtPoint (xy : ℚ × ℚ) : ℚ × ℚ :=
  (format6 (clamp01 xy.1), format6 (clamp01 xy.2))

theorem parseFloats_map_flt (l : List ℚ) :
    parseFloats (l.map Token.flt) = some l := by
  induction l with
  | nil => rfl
  | cons c rest ih => simp [parseFloats, parseFloat, ih]

theorem coordsFlat_length (pts : List (ℚ × ℚ)) :
    (coordsFlat pts).length = 2 * pts.length := by
  induction pts with
  | nil => rfl
  | cons xy rest ih => simp [coordsFlat, ih]; ring

theorem pairUp_coordsFlat (pts : List (ℚ × ℚ)) :
    pairUp ((coordsFlat pts).map format6) = pts.map fmtPoint := by
  induction pts with
  | nil => rfl
  | cons xy rest ih => simp [coordsFlat, pairUp, fmtPoint, ih]

theorem parseLine_writeLine (p : Polygon) :
    parseLine (writeLine p) = some (p.1, p.2.map fmtPoint) := by
  have hmap : (coordsFlat p.2).map (fun c => Token.flt (format6 c))
      = ((coordsFlat p.2).map format6).map Token.flt := by
    simp [List.map_map]
  rw [writeLine, hmap, parseLine, parseInt]
  rw [parseFloats_map_flt]
  simp [coordsFlat_length, pairUp_coordsFlat, Nat.mul_mod_right]

theorem read_write_polygons (s : AnnotationSet) :
    read_polygons (write_polygons s)
      = s.map (fun p => (p.1, p.2.map fmtPoint)) := by
  induction s with
  | nil => rfl
  | cons p rest ih =>
    simp only [write_polygons, List.map_cons] at ih ⊢
    rw [read_polygons, parseLine_writeLine, ih]

theorem format6_approx (c : ℚ) : |c - format6 c| ≤ 1 / 1000000 := by
  have h := abs_sub_round (c * 1000000)
  have he : c - format6 c
      = (c * 1000000 - (round (c * 1000000) : ℤ)) / 1000000 := by
    rw [format6]; ring
  rw [he, abs_div, abs_of_pos (by norm_num : (0:ℚ) < 1000000)]
  linarith

theorem clamp01_of_unit (c : ℚ) (h0 : 0 ≤ c) (h1 : c ≤ 1) : clamp01 c = c := by
  rw [clamp01, max_eq_left h0, min_eq_left h1]

theorem zip_self_map {α β : Type} (l : List α) (f : α → β) :
    l.zip (l.map f) = l.map fun a => (a, f a) := by
  induction l with
  | nil => rfl
  | cons a rest ih => simp [ih]

theorem clamp01_mem_unit (c : ℚ) : 0 ≤ clamp01 c ∧ clamp01 c ≤ 1 :=
  ⟨le_min (le_max_right c 0) (by norm_num), min_le_right _ _⟩

theorem format6_mem_unit (c : ℚ) (h0 : 0 ≤ c) (h1 : c ≤ 1) :
    0 ≤ format6 c ∧ format6 c ≤ 1 := by
  have hlo : (0:ℤ) ≤ round (c * 1000000) := by
    rw [round_eq]
    exact Int.le_floor.mpr (by push_cast; linarith)
  have hhi : round (c * 1000000) ≤ 1000000 := by
    rw [round_eq]
    have hfl : ⌊c * 1000000 + 1/2⌋ < 1000001 :=
      Int.floor_lt.mpr (by push_cast; linarith)
    omega
  constructor
  · exact div_nonneg (by exact_mod_cast hlo) (by norm_num)
  · rw [format6, div_le_one (by norm_num)]
    exact_mod_cast hhi

theorem coordsFlat_mem_unit (pts : List (ℚ × ℚ)) (c : ℚ)
    (hc : c ∈ coordsFlat pts) : 0 ≤ c ∧ c ≤ 1 := by
  induction pts with
  | nil => simp [coordsFlat] at hc
  | cons xy rest ih =>
    simp only [coordsFlat, List.mem_cons] at hc
    rcases hc with h | h | h
    · exact h ▸ clamp01_mem_unit xy.1
    · exact h ▸ clamp01_mem_unit xy.2
    · exact ih h

theorem filterMap_length_of_isSome {α β : Type} (g : α → Option β)
    (l : List α) (h : ∀ a ∈ l, (g a).isSome) :
    (l.filterMap g).length = l.length := by
  induction l with
  | nil => rfl
  | cons a rest ih =>
    obtain ⟨b, hb⟩ := Option.isSome_iff_exists.mp (h a (by simp))
    rw [List.filterMap_cons_some hb, List.length_cons, List.length_cons,
      ih (fun x hx => h x (by simp [hx]))]

theorem filterMap_map_sublist {α β : Type} (g : α → Option β) (f : β → α)
    (l : List α) (hpr : ∀ a b, g a = some b → f b = a) :
    ((l.filterMap g).map f).Sublist l := by
  induction l with
  | nil => simp
  | cons a rest ih =>
    cases hg : g a with
    | none =>
      rw [List.filterMap_cons_none hg]
      exact ih.cons a
    | some b =>
      rw [List.filterMap_cons_some hg, List.map_cons, hpr a b hg]
      exact ih.cons₂ a

theorem augIteration_eq_some (stem : String) (polys : AnnotationSet)
    (w h : ℚ) (tf : ℕ → List (ℚ × ℚ) → Option (List (ℚ × ℚ))) (i : ℕ)
    (o : OutputPair) (ho : augIteration stem polys w h tf i = some o) :
    o.idx = i ∧ o.imgName = stem ++ "_aug" ++ toString i ++ ".jpg"
      ∧ o.lblName = stem ++ "_aug" ++ toString i ++ ".txt"
      ∧ ∃ kps, tf i (flattenKeypoints w h polys) = some kps
          ∧ o.label = write_polygons (resliceAux w h polys kps) := by
  rw [augIteration, Option.map_eq_some'] at ho
  obtain ⟨kps, hkps, ho⟩ := ho
  subst ho
  exact ⟨rfl, rfl, rfl, kps, hkps, rfl⟩

/-- C1: in one iteration of `process_image`, the flattened keypoint list
passed to the transform has length equal to the sum of the per-polygon point
counts in `AnnotationSet` order, and reslicing a transformed keypoint list
of that same length reproduces, per polygon index, the original class id,
position in the sequence, and point count. -/
theorem flatten_reslice_invariant (polys : AnnotationSet) (w h : ℚ)
    (kps : List (ℚ × ℚ))
    (hlen : kps.length = (polys.map fun p => p.2.length).sum) :
    (flattenKeypoints w h polys).length = (polys.map fun p => p.2.length).sum
    ∧ (resliceAux w h polys kps).map Prod.fst = polys.map Prod.fst
    ∧ (resliceAux w h polys kps).map (fun p => p.2.length)
        = polys.map (fun p => p.2.length) := by
  refine ⟨?_, ?_⟩
  · clear hlen
    induction polys with
    | nil => rfl
    | cons p rest ih => simp [flattenKeypoints, ih]
  · induction polys generalizing kps with
    | nil => exact ⟨rfl, rfl⟩
    | cons p rest ih =>
      simp only [List.map_cons, List.sum_cons] at hlen
      have hle : p.2.length ≤ kps.length := by omega
      have hdrop : (kps.drop p.2.length).length
          = (rest.map fun q => q.2.length).sum := by
        simp only [List.length_drop]; omega
      obtain ⟨ih1, ih2⟩ := ih (kps.drop p.2.length) hdrop
      constructor
      · simp only [resliceAux, List.map_cons, ih1]
      · simp only [resliceAux, List.map_cons, ih2, List.length_map,
          List.length_take, Nat.min_eq_left hle]

/-- Witness for C1 at a concrete annotation set and keypoint list. -/
theorem flatten_reslice_invariant_witness :
    ([((7:ℚ), (8:ℚ))].length
        = ([((5:ℤ), [((1:ℚ)/2, (1:ℚ)/3)])].map fun p => p.2.length).sum)
    ∧ ((flattenKeypoints 2 3 [((5:ℤ), [((1:ℚ)/2, (1:ℚ)/3)])]).length
        = ([((5:ℤ), [((1:ℚ)/2, (1:ℚ)/3)])].map fun p => p.2.length).sum
      ∧ (resliceAux 2 3 [((5:ℤ), [((1:ℚ)/2, (1:ℚ)/3)])]
            [((7:ℚ), (8:ℚ))]).map Prod.fst
          = [((5:ℤ), [((1:ℚ)/2, (1:ℚ)/3)])].map Prod.fst
      ∧ (resliceAux 2 3 [((5:ℤ), [((1:ℚ)/2, (1:ℚ)/3)])]
            [((7:ℚ), (8:ℚ))]).map (fun p => p.2.length)
          = [((5:ℤ), [((1:ℚ)/2, (1:ℚ)/3)])].map (fun p => p.2.length)) :=
  ⟨rfl, flatten_reslice_invariant [((5:ℤ), [((1:ℚ)/2, (1:ℚ)/3)])] 2 3
    [((7:ℚ), (8:ℚ))] rfl⟩

/-- C2: for an annotation set whose coordinates all lie in `[0,1]`, reading
back the written file yields the same class ids, polygon order and point
counts, with every coordinate within `1e-6` of the original (clamping is a
no-op on such input). -/
theorem write_read_roundtrip (s : AnnotationSet)
    (hs : ∀ p ∈ s, ∀ xy ∈ p.2, 0 ≤ xy.1 ∧ xy.1 ≤ 1 ∧ 0 ≤ xy.2 ∧ xy.2 ≤ 1) :
    (read_polygons (write_polygons s)).map Prod.fst = s.map Prod.fst
    ∧ (read_polygons (write_polygons s)).map (fun p => p.2.length)
        = s.map (fun p => p.2.length)
    ∧ ∀ pq ∈ s.zip (read_polygons (write_polygons s)),
        ∀ xy ∈ pq.1.2.zip pq.2.2,
          |xy.1.1 - xy.2.1| ≤ 1 / 1000000 ∧ |xy.1.2 - xy.2.2| ≤ 1 / 1000000 := by
  rw [read_write_polygons]
  refine ⟨by simp, by simp, ?_⟩
  rw [zip_self_map]
  intro pq hpq
  obtain ⟨p, hp, hpq⟩ := List.mem_map.mp hpq
  subst hpq
  simp only [zip_self_map]
  intro xy hxy
  obtain ⟨q, hq, hxy⟩ := List.mem_map.mp hxy
  subst hxy
  obtain ⟨hq1, hq2, hq3, hq4⟩ := hs p hp q hq
  constructor
  · simpa [fmtPoint, clamp01_of_unit q.1 hq1 hq2] using format6_approx q.1
  · simpa [fmtPoint, clamp01_of_unit q.2 hq3 hq4] using format6_approx q.2

/-- Witness for C2 at a concrete one-polygon annotation set inside `[0,1]`. -/
theorem write_read_roundtrip_witness :
    (∀ p ∈ [((0:ℤ), [((1:ℚ)/2, (1:ℚ)/4)])], ∀ xy ∈ p.2,
        0 ≤ xy.1 ∧ xy.1 ≤ 1 ∧ 0 ≤ xy.2 ∧ xy.2 ≤ 1)
    ∧ ((read_polygons (write_polygons [((0:ℤ), [((1:ℚ)/2, (1:ℚ)/4)])])).map
          Prod.fst = [((0:ℤ), [((1:ℚ)/2, (1:ℚ)/4)])].map Prod.fst
      ∧ (read_polygons (write_polygons [((0:ℤ), [((1:ℚ)/2, (1:ℚ)/4)])])).map
            (fun p => p.2.length)
          = [((0:ℤ), [((1:ℚ)/2, (1:ℚ)/4)])].map (fun p => p.2.length)
      ∧ ∀ pq ∈ [((0:ℤ), [((1:ℚ)/2, (1:ℚ)/4)])].zip
            (read_polygons (write_polygons [((0:ℤ), [((1:ℚ)/2, (1:ℚ)/4)])])),
          ∀ xy ∈ pq.1.2.zip pq.2.2,
            |xy.1.1 - xy.2.1| ≤ 1 / 1000000
            ∧ |xy.1.2 - xy.2.2| ≤ 1 / 1000000) :=
  ⟨by norm_num, write_read_roundtrip [((0:ℤ), [((1:ℚ)/2, (1:ℚ)/4)])]
    (by norm_num)⟩

/-- C3 counterexample: a label file whose first line is well formed and
whose second line has a non-numeric token does not yield an empty
annotation set — `read_polygons` keeps the polygons parsed before the
malformed line. -/
theorem read_polygons_malformed_counterexample :
    read_polygons [[Token.int 0, Token.flt (1/2), Token.flt (1/2)],
      [Token.bad]] ≠ [] := by
  simp [read_polygons, parseLine, parseInt, parseFloat, parseFloats, pairUp]

/-- C3 (amended): on a malformed line (too few tokens, odd coordinate
count, or a non-numeric token) `read_polygons` stops without propagating the
exception and returns the polygons of the well-formed lines preceding the
first malformed one — an empty annotation set exactly when the malformed
line comes first; later lines contribute nothing. -/
theorem read_polygons_stops_at_first_malformed (pre post : List (List Token))
    (bad : List Token) (hpre : ∀ l ∈ pre, (parseLine l).isSome)
    (hbad : parseLine bad = none) :
    read_polygons (pre ++ bad :: post) = pre.filterMap parseLine := by
  induction pre with
  | nil => simp [read_polygons, hbad]
  | cons l ls ih =>
    obtain ⟨p, hp⟩ := Option.isSome_iff_exists.mp (hpre l (by simp))
    rw [List.cons_append, read_polygons, hp,
      ih (fun x hx => hpre x (by simp [hx])), List.filterMap_cons_some hp]

/-- Witness for C3 (amended) at a concrete two-line file with a trailing
malformed line. -/
theorem read_polygons_stops_at_first_malformed_witness :
    (∀ l ∈ [[Token.int 0, Token.flt (1/2), Token.flt (1/2)]],
        (parseLine l).isSome)
    ∧ parseLine [Token.bad] = none
    ∧ read_polygons ([[Token.int 0, Token.flt (1/2), Token.flt (1/2)]]
          ++ [Token.bad] :: [])
        = [[Token.int 0, Token.flt (1/2), Token.flt (1/2)]].filterMap
            parseLine :=
  ⟨by simp [parseLine, parseInt, parseFloat, parseFloats], rfl,
    read_polygons_stops_at_first_malformed
      [[Token.int 0, Token.flt (1/2), Token.flt (1/2)]] [] [Token.bad]
      (by simp [parseLine, parseInt, parseFloat, parseFloats]) rfl⟩

/-- C4: for a 640x480 image with the single polygon
`(0, [(0.1,0.1),(0.9,0.1),(0.9,0.9)])`, one iteration in which the
horizontal-flip gate fires and no other gate fires writes the polygon
`[(0.9,0.1),(0.1,0.1),(0.1,0.9)]`: each normalized x becomes exactly
`1 - x`, y is unchanged, point order is preserved.  The pipeline's keypoint
action is modelled from the spec (the albumentations transforms are not
part of this repository). -/
theorem hflip_scenario :
    process_image ⟨"img",
      some [[Token.int 0, Token.flt (1/10), Token.flt (1/10), Token.flt (9/10),
        Token.flt (1/10), Token.flt (9/10), Token.flt (9/10)]],
      some (640, 480)⟩ 1
      (fun _ kps => some (pipelineKeypoints true false false false 640 kps)) =
    [⟨0, "img_aug0.jpg", "img_aug0.txt",
      [[Token.int 0, Token.flt (9/10), Token.flt (1/10), Token.flt (1/10),
        Token.flt (1/10), Token.flt (1/10), Token.flt (9/10)]]⟩] := by
  simp [process_image, augIteration, read_polygons, parseLine, parseInt,
    parseFloat, parseFloats, pairUp, flattenKeypoints, resliceAux,
    pipelineKeypoints, photometricKeypoints, hflipKeypoint, toPixel,
    toNormalized, write_polygons, writeLine, coordsFlat,
    clamp01, format6, List.range_succ]
  norm_num
  exact ⟨rfl, rfl⟩

/-- C5: every coordinate token written by `write_polygons` lies in `[0,1]`:
each point's x and y are independently clamped before the six-decimal
formatting, with out-of-range values replaced by the nearest bound and
in-range values left alone. -/
theorem write_polygons_clamps (polys : AnnotationSet) (c : ℚ) :
    (∀ line ∈ write_polygons polys, ∀ q : ℚ, Token.flt q ∈ line →
        0 ≤ q ∧ q ≤ 1)
    ∧ (c < 0 → clamp01 c = 0) ∧ (1 < c → clamp01 c = 1)
    ∧ (0 ≤ c → c ≤ 1 → clamp01 c = c) := by
  refine ⟨?_, ?_, ?_, fun h0 h1 => clamp01_of_unit c h0 h1⟩
  · intro line hline q hq
    obtain ⟨p, hp, hline⟩ := List.mem_map.mp hline
    subst hline
    rw [writeLine] at hq
    rcases List.mem_cons.mp hq with h | h
    · exact absurd h (by simp)
    · obtain ⟨d, hd, hdq⟩ := List.mem_map.mp h
      have hq6 : format6 d = q := by
        simpa using hdq
      obtain ⟨hd0, hd1⟩ := coordsFlat_mem_unit p.2 d hd
      exact hq6 ▸ format6_mem_unit d hd0 hd1
  · intro hc
    rw [clamp01, max_eq_right (le_of_lt hc), min_eq_left (by norm_num)]
  · intro hc
    rw [clamp01, max_eq_left (le_of_lt (lt_trans one_pos hc)),
      min_eq_right (le_of_lt hc)]

/-- Witness for C5: a below-range, an above-range and an in-range
coordinate, plus the written file of a polygon with out-of-range points. -/
theorem write_polygons_clamps_witness :
    clamp01 (-(1:ℚ)) = 0 ∧ clamp01 ((3:ℚ)/2) = 1 ∧ clamp01 ((1:ℚ)/2) = 1/2
    ∧ (∀ line ∈ write_polygons [((0:ℤ), [((3:ℚ)/2, -(1:ℚ))])],
        ∀ q : ℚ, Token.flt q ∈ line → 0 ≤ q ∧ q ≤ 1) :=
  ⟨(write_polygons_clamps [] (-1)).2.1 (by norm_num),
   (write_polygons_clamps [] (3/2)).2.2.1 (by norm_num),
   (write_polygons_clamps [] (1/2)).2.2.2 (by norm_num) (by norm_num),
   (write_polygons_clamps [((0:ℤ), [((3:ℚ)/2, -(1:ℚ))])] 0).1⟩

/-- C6: the normalized-to-pixel map multiplies each coordinate
independently by the image dimension and the pixel-to-normalized map
divides by the same pre-transform dimensions, so for positive dimensions
each point round-trips exactly — in particular, reslicing the
untransformed flattened keypoint list reproduces the annotation set. -/
theorem pixel_normalized_inverse (w h : ℚ) (hw : 0 < w) (hh : 0 < h) :
    (∀ p : ℚ × ℚ, toPixel w h p = (p.1 * w, p.2 * h)
      ∧ toNormalized w h (toPixel w h p) = p)
    ∧ ∀ polys : AnnotationSet,
        resliceAux w h polys (flattenKeypoints w h polys) = polys := by
  have hpt : ∀ p : ℚ × ℚ, toNormalized w h (toPixel w h p) = p := by
    intro p
    rw [toPixel, toNormalized]
    show (p.1 * w / w, p.2 * h / h) = p
    rw [mul_div_cancel_right₀ p.1 (ne_of_gt hw),
      mul_div_cancel_right₀ p.2 (ne_of_gt hh)]
  refine ⟨fun p => ⟨rfl, hpt p⟩, ?_⟩
  intro polys
  induction polys with
  | nil => rfl
  | cons p rest ih =>
    rw [flattenKeypoints, resliceAux,
      List.take_left' (List.length_map p.2 (toPixel w h)),
      List.drop_left' (List.length_map p.2 (toPixel w h)), ih,
      List.map_map]
    have hmap : p.2.map (toNormalized w h ∘ toPixel w h) = p.2.map id :=
      List.map_congr_left (fun a _ => hpt a)
    rw [hmap, List.map_id]

/-- Witness for C6 at dimensions 640x480 and a concrete annotation set. -/
theorem pixel_normalized_inverse_witness :
    ((0:ℚ) < 640) ∧ ((0:ℚ) < 480)
    ∧ ((∀ p : ℚ × ℚ, toPixel 640 480 p = (p.1 * 640, p.2 * 480)
          ∧ toNormalized 640 480 (toPixel 640 480 p) = p)
      ∧ ∀ polys : AnnotationSet,
          resliceAux 640 480 polys (flattenKeypoints 640 480 polys) = polys) :=
  ⟨by norm_num, by norm_num,
    pixel_normalized_inverse 640 480 (by norm_num) (by norm_num)⟩

/-- C7: if the transform raises at iteration `i`, that iteration produces
no output pair, the loop is not terminated, and every other iteration's
output is exactly what it is in a run where iteration `i` does not fail. -/
theorem transform_failure_isolation (stem : String)
    (lines : List (List Token)) (w h : ℚ) (n : ℕ)
    (tf tg : ℕ → List (ℚ × ℚ) → Option (List (ℚ × ℚ))) (i : ℕ)
    (hfail : ∀ kps, tf i kps = none)
    (hagree : ∀ j, j ≠ i → tf j = tg j) :
    (∀ o ∈ process_image ⟨stem, some lines, some (w, h)⟩ n tf, o.idx ≠ i)
    ∧ process_image ⟨stem, some lines, some (w, h)⟩ n tf
      = (process_image ⟨stem, some lines, some (w, h)⟩ n tg).filter
          (fun o => o.idx != i) := by
  have hmem : ∀ o ∈ process_image ⟨stem, some lines, some (w, h)⟩ n tf,
      o.idx ≠ i := by
    intro o ho
    obtain ⟨j, hj, hsome⟩ := List.mem_filterMap.mp ho
    obtain ⟨hidx, -, -, kps, hkps, -⟩ :=
      augIteration_eq_some stem (read_polygons lines) w h tf j o hsome
    intro hoi
    rw [hidx] at hoi
    subst hoi
    rw [hfail] at hkps
    exact Option.noConfusion hkps
  refine ⟨hmem, ?_⟩
  have hself : process_image ⟨stem, some lines, some (w, h)⟩ n tf
      = (process_image ⟨stem, some lines, some (w, h)⟩ n tf).filter
          (fun o => o.idx != i) := by
    rw [List.filter_eq_self.mpr]
    intro o ho
    simpa using hmem o ho
  rw [hself]
  show ((List.range n).filterMap
      (augIteration stem (read_polygons lines) w h tf)).filter
        (fun o => o.idx != i)
    = ((List.range n).filterMap
      (augIteration stem (read_polygons lines) w h tg)).filter
        (fun o => o.idx != i)
  rw [List.filter_filterMap, List.filter_filterMap]
  apply List.filterMap_congr
  intro j hj
  by_cases hji : j = i
  · subst hji
    have hl : augIteration stem (read_polygons lines) w h tf j = none := by
      rw [augIteration, hfail]
      rfl
    rw [hl]
    cases hr : augIteration stem (read_polygons lines) w h tg j with
    | none => rfl
    | some o =>
      have hidx : o.idx = j :=
        (augIteration_eq_some stem (read_polygons lines) w h tg j o hr).1
      simp [Option.filter, hidx]
  · have : tf j = tg j := hagree j hji
    rw [augIteration, augIteration, this]

/-- Witness for C7: two iterations, the first raising under `tf` and
succeeding under `tg`. -/
theorem transform_failure_isolation_witness :
    (∀ kps, (fun j : ℕ => fun kps : List (ℚ × ℚ) =>
        if j = 0 then none else some kps) 0 kps = none)
    ∧ (∀ j, j ≠ 0 → (fun j : ℕ => fun kps : List (ℚ × ℚ) =>
        if j = 0 then none else some kps) j
        = (fun _ : ℕ => fun kps : List (ℚ × ℚ) => some kps) j)
    ∧ ((∀ o ∈ process_image ⟨"a", some [], some (1, 1)⟩ 2
          (fun j kps => if j = 0 then none else some kps), o.idx ≠ 0)
      ∧ process_image ⟨"a", some [], some (1, 1)⟩ 2
          (fun j kps => if j = 0 then none else some kps)
        = (process_image ⟨"a", some [], some (1, 1)⟩ 2
            (fun _ kps => some kps)).filter (fun o => o.idx != 0)) :=
  ⟨fun _ => rfl, fun j hj => by funext kps; simp [hj],
    transform_failure_isolation "a" [] 1 1 2
      (fun j kps => if j = 0 then none else some kps)
      (fun _ kps => some kps) 0 (fun _ => rfl)
      (fun j hj => by funext kps; simp [hj])⟩

/-- C8: a source image whose derived label path does not exist produces
zero output pairs, independently of the image content (the label check
precedes the image read), and the remaining batch is processed exactly as
without it. -/
theorem missing_label_skips (stem : String) (img img2 : Option (ℚ × ℚ))
    (n : ℕ) (tf : ℕ → List (ℚ × ℚ) → Option (List (ℚ × ℚ)))
    (rest : List ImageInput) :
    process_image ⟨stem, none, img⟩ n tf = []
    ∧ process_image ⟨stem, none, img⟩ n tf
        = process_image ⟨stem, none, img2⟩ n tf
    ∧ processBatch (⟨stem, none, img⟩ :: rest) n tf
        = [] :: processBatch rest n tf :=
  ⟨rfl, rfl, rfl⟩

/-- C9: with an existing label file, a readable image and `n` requested
iterations, between 0 and `n` output pairs are produced; each carries a
distinct iteration index below `n` and is named `{stem}_aug{idx}` with the
`.jpg` image and `.txt` label extensions. -/
theorem output_cardinality (stem : String) (lines : List (List Token))
    (w h : ℚ) (n : ℕ)
    (tf : ℕ → List (ℚ × ℚ) → Option (List (ℚ × ℚ))) :
    (process_image ⟨stem, some lines, some (w, h)⟩ n tf).length ≤ n
    ∧ ((process_image ⟨stem, some lines, some (w, h)⟩ n tf).map
        OutputPair.idx).Nodup
    ∧ ∀ o ∈ process_image ⟨stem, some lines, some (w, h)⟩ n tf,
        o.idx < n ∧ o.imgName = stem ++ "_aug" ++ toString o.idx ++ ".jpg"
        ∧ o.lblName = stem ++ "_aug" ++ toString o.idx ++ ".txt" := by
  refine ⟨?_, ?_, ?_⟩
  · calc ((List.range n).filterMap
          (augIteration stem (read_polygons lines) w h tf)).length
        ≤ (List.range n).length := List.length_filterMap_le _ _
      _ = n := List.length_range n
  · exact (filterMap_map_sublist _ OutputPair.idx (List.range n)
      (fun a b hb =>
        (augIteration_eq_some stem (read_polygons lines) w h tf a b hb).1)).nodup
      (List.nodup_range n)
  · intro o ho
    obtain ⟨j, hj, hsome⟩ := List.mem_filterMap.mp ho
    obtain ⟨hidx, himg, hlbl, -⟩ :=
      augIteration_eq_some stem (read_polygons lines) w h tf j o hsome
    subst hidx
    exact ⟨List.mem_range.mp hj, himg, hlbl⟩

/-- Witness for C9 at a concrete image with two iterations, one failing. -/
theorem output_cardinality_witness :
    (process_image ⟨"b", some [], some (1, 1)⟩ 2
        (fun j kps => if j = 0 then none else some kps)).length ≤ 2
    ∧ ((process_image ⟨"b", some [], some (1, 1)⟩ 2
        (fun j kps => if j = 0 then none else some kps)).map
          OutputPair.idx).Nodup
    ∧ ∀ o ∈ process_image ⟨"b", some [], some (1, 1)⟩ 2
        (fun j kps => if j = 0 then none else some kps),
        o.idx < 2 ∧ o.imgName = "b" ++ "_aug" ++ toString o.idx ++ ".jpg"
        ∧ o.lblName = "b" ++ "_aug" ++ toString o.idx ++ ".txt" :=
  output_cardinality "b" [] 1 1 2 (fun j kps => if j = 0 then none else some kps)

/-- C10: a label file that exists but yields zero polygons does not cause a
skip: the keypoint list handed to the transform is empty, every produced
pair carries an empty label file, and when every iteration's transform call
succeeds all `n` pairs are produced. -/
theorem empty_label_still_processed (stem : String)
    (lines : List (List Token)) (w h : ℚ) (n : ℕ)
    (tf : ℕ → List (ℚ × ℚ) → Option (List (ℚ × ℚ)))
    (hempty : read_polygons lines = [])
    (hok : ∀ i, i < n → (tf i []).isSome) :
    flattenKeypoints w h (read_polygons lines) = []
    ∧ (process_image ⟨stem, some lines, some (w, h)⟩ n tf).length = n
    ∧ ∀ o ∈ process_image ⟨stem, some lines, some (w, h)⟩ n tf,
        o.label = [] := by
  have hflat : flattenKeypoints w h (read_polygons lines) = [] := by
    rw [hempty]
    rfl
  refine ⟨hflat, ?_, ?_⟩
  · show ((List.range n).filterMap
        (augIteration stem (read_polygons lines) w h tf)).length = n
    rw [filterMap_length_of_isSome _ _ ?_, List.length_range]
    intro j hj
    rw [augIteration, hflat]
    obtain ⟨kps, hkps⟩ :=
      Option.isSome_iff_exists.mp (hok j (List.mem_range.mp hj))
    rw [hkps]
    rfl
  · intro o ho
    obtain ⟨j, hj, hsome⟩ := List.mem_filterMap.mp ho
    obtain ⟨-, -, -, kps, -, hlbl⟩ :=
      augIteration_eq_some stem (read_polygons lines) w h tf j o hsome
    rw [hlbl, hempty]
    rfl

/-- Witness for C10: an empty label file, one iteration, a transform that
succeeds. -/
theorem empty_label_still_processed_witness :
    read_polygons [] = []
    ∧ (∀ i, i < 1 → ((fun _ : ℕ => fun kps : List (ℚ × ℚ) => some kps) i
        []).isSome)
    ∧ (flattenKeypoints 1 1 (read_polygons []) = []
      ∧ (process_image ⟨"c", some [], some (1, 1)⟩ 1
          (fun _ kps => some kps)).length = 1
      ∧ ∀ o ∈ process_image ⟨"c", some [], some (1, 1)⟩ 1
          (fun _ kps => some kps), o.label = []) :=
  ⟨rfl, fun _ _ => rfl,
    empty_label_still_processed "c" [] 1 1 1 (fun _ kps => some kps) rfl
      (fun _ _ => rfl)⟩

end PolygonAugmentor
